import Mathlib

/-!
Verification of the `aerosol` compile-time dependency-injection library.

The crate root (`src/lib.rs`) defines the `Factory` trait, re-exports the
`Provide` / `ProvideWith` capability traits, and defines the
`FactoryAdaptor` compatibility shim between the current `Factory` trait
(`build() -> Result<Object, Error>`) and the old `v0_2::Factory` trait
(`build(()) -> Result<Object, Error>`).  Those are embedded directly from
the source.

The macro modules (`join`, `parse`, `interface`, `context`) are declared
in `lib.rs` but their source files are not part of the available tree, so
the parser, the interface compiler (blanket satisfaction, conflict
detection) and the context compiler (constructor, substitution) are
modelled from the specification, each such definition carrying a
`Modelled from the spec:` doc comment.
-/

namespace Aerosol

/-- The current (new-style) factory protocol of `lib.rs`:
`trait Factory { type Object; fn build() -> Result<Self::Object, failure::Error> }`.
A factory is embedded as the record of its static `build` function;
the associated `Object` type and the error type are type parameters. -/
structure Factory (E O : Type) where
  build : Except E O

/-- The old factory protocol of the `v0_2` crate:
`trait Factory { type Object; fn build(_: ()) -> Result<Self::Object, Error> }`;
its `build` takes a unit argument. -/
structure v0_2.Factory (E O : Type) where
  build : Unit → Except E O

/-- `impl<T: v0_2::Factory> Factory for FactoryAdaptor<T>`:
the adaptor exposes an old-style factory through the new protocol,
with `type Object = T::Object` and `build() = T::build(())`. -/
def FactoryAdaptor.newOfOld (t : v0_2.Factory E O) : Factory E O :=
  ⟨t.build ()⟩

/-- `impl<T: Factory> v0_2::Factory for FactoryAdaptor<T>`:
the adaptor exposes a new-style factory through the old protocol,
with `type Object = T::Object` and `build(_: ()) = T::build()`. -/
def FactoryAdaptor.oldOfNew (t : Factory E O) : v0_2.Factory E O :=
  ⟨fun _ => t.build⟩

/-- Modelled from the spec: the Interface Declaration IR of §3 (the
`interface` module is absent from src/).  A compiled interface carries its
name, the previously compiled interfaces it inherits (in declaration
order), its own `required_methods` as `(method_name, return_capability_type)`
pairs, and the extra marker supertraits. -/
inductive Interface : Type where
  | mk (name : String) (inherited : List Interface)
      (required_methods : List (String × String))
      (extra_supertraits : List String)

mutual

/-- Modelled from the spec: the flattened accessor set of an interface
descriptor: every `(method_name, return_capability_type)` pair declared by
an inherited interface (recursively, in declaration order) or by the
interface itself. -/
def Interface.allMethods : Interface → List (String × String)
  | .mk _ inh req _ => allMethodsList inh ++ req

/-- Flattened accessor set of a list of inherited interfaces, in
declaration order. -/
def allMethodsList : List Interface → List (String × String)
  | [] => []
  | i :: rest => i.allMethods ++ allMethodsList rest

end

/-- Modelled from the spec: the full (inheritance-flattened) requirement
set of an interface — every capability type required directly or through
the inheritance chain. -/
def Interface.reqTypes (i : Interface) : List String :=
  i.allMethods.map Prod.snd

/-- Modelled from the spec: `C` satisfies `I`'s full requirement set when
every type in the flattened requirement set is among the types `C`
provides. -/
def satisfiesB (provides : List String) (i : Interface) : Bool :=
  i.reqTypes.all fun t => provides.contains t

mutual

/-- Modelled from the spec: the blanket satisfaction rule of §4.3 — a
concrete type implements an interface's descriptor exactly when it
(a) implements every inherited interface's descriptor and (b) implements
`Provide<T>` for every `T` in `required_methods` (the blanket impl being
the only way a context obtains the descriptor). -/
def implementsDescriptor (provides : List String) : Interface → Bool
  | .mk _ inh req _ =>
      implementsAll provides inh &&
        req.all (fun m => provides.contains m.2)

/-- A type implements the descriptors of all interfaces in the list. -/
def implementsAll (provides : List String) : List Interface → Bool
  | [] => true
  | i :: rest => implementsDescriptor provides i && implementsAll provides rest

end

/-- The `Provide<T>` capability of a context, embedded as a lookup of the
slot bound at capability type `t`: a context is value-modelled as the
association list from each bound `value_type` to the value it holds. -/
def Provide (c : List (String × V)) (t : String) : Option V :=
  (c.find? fun p => p.1 = t).map Prod.snd

/-- Modelled from the spec: the accessor body emitted by the blanket
satisfaction implementation for a method returning capability type `t`:
it delegates to the `Provide<T>` capability. -/
def blanketAccessor (c : List (String × V)) (t : String) : Option V :=
  Provide c t

/-- Modelled from the spec: the full accessor table emitted by the blanket
satisfaction implementation — one accessor per flattened method, each
being the blanket accessor body for that method's return capability
type. -/
def blanketAccessors (c : List (String × V)) (i : Interface) :
    List (String × Option V) :=
  i.allMethods.map fun m => (m.1, blanketAccessor c m.2)

/-- The inherited interfaces of a compiled interface. -/
def Interface.inherited : Interface → List Interface
  | .mk _ inh _ _ => inh

/-- Build-time error taxonomy of §7 (grammar, conflict, unresolved
reference). -/
inductive CompileError : Type where
  | grammarError | conflictError | unresolvedReference
deriving DecidableEq, Repr

/-- A flattened accessor list is conflict-free when no two entries share a
method name under different return capability types. -/
def conflictFree (ms : List (String × String)) : Bool :=
  ms.all fun a => ms.all fun b => a.1 ≠ b.1 || a.2 = b.2

/-- Modelled from the spec: the interface compiler's combination step —
compiling `interface name : inherited { required }` fails with a Conflict
Error whenever the flattened accessor set has a name collision under
different return capability types; it never resolves a collision by
last-write-wins. -/
def compileInterface (name : String) (inherited : List Interface)
    (required : List (String × String)) (extra : List String) :
    Except CompileError Interface :=
  let i := Interface.mk name inherited required extra
  if conflictFree i.allMethods then .ok i else .error .conflictError

/-- One context binding at container-construction time: the binding's
field name together with the `Result` its construction strategy produces
(the `context` module is absent from src/, so the runtime shape of a
binding is modelled from the spec's §3 Context Declaration and §4.4). -/
structure Binding (E V : Type) where
  field_name : String
  build : Except E V

/-- Modelled from the spec: the generated constructor
`new() -> Result<Self, Error>` — run each binding's construction strategy
in declaration order, short-circuit on the first failure (propagating that
binding's error wrapped with its field name), and assemble the container
(the ordered list of `(field_name, value)` slots) only if all succeed. -/
def contextNew : List (Binding E V) → Except (String × E) (List (String × V))
  | [] => .ok []
  | b :: rest =>
    match b.build with
    | .error e => .error (b.field_name, e)
    | .ok v =>
      match contextNew rest with
      | .error e => .error e
      | .ok vs => .ok ((b.field_name, v) :: vs)

/-- One slot of a constructed container for the substitution pathway:
field name, bound capability type, and the held value. -/
structure Slot (V : Type) where
  field_name : String
  value_type : String
  value : V
deriving DecidableEq, Repr

/-- Modelled from the spec: the `ProvideWith<T>` substitution operation —
given a replacement factory result for capability type `t`, produce a new
container identical in every other binding but with `t`'s slot rebuilt
from the replacement (the input container is a pure value and is never
mutated). -/
def provideWith (t : String) (replacement : Except E V) :
    List (Slot V) → Except (String × E) (List (Slot V))
  | [] => .ok []
  | s :: rest =>
    if s.value_type = t then
      match replacement with
      | .error e => .error (s.field_name, e)
      | .ok v =>
        match provideWith t replacement rest with
        | .error e => .error e
        | .ok r => .ok (⟨s.field_name, s.value_type, v⟩ :: r)
    else
      match provideWith t replacement rest with
      | .error e => .error e
      | .ok r => .ok (s :: r)

/-- The container type generated for the crate-doc example
`context AppContext { logger: Logger [LoggerFactory] }`: one owned slot
per binding. -/
structure AppContext (V : Type) where
  logger : V

/-- Modelled from the spec: the constructor generated for
`context AppContext { logger: Logger [LoggerFactory] }` — run the single
binding's factory, wrap a failure with the field name "logger", assemble
the container on success. -/
def AppContext.new (loggerFactory : Factory E V) :
    Except (String × E) (AppContext V) :=
  match loggerFactory.build with
  | .ok v => .ok (AppContext.mk v)
  | .error e => .error ("logger", e)

/-- Modelled from the spec: the `Provide<Logger>` implementation generated
for `AppContext`, returning the corresponding slot. -/
def AppContext.provideLogger (c : AppContext V) : V :=
  c.logger

/-- Lexical fragments of the declarative grammar surface (§6): the
`parse` module is absent from src/, so the token vocabulary is modelled
from the spec's two grammar forms. -/
inductive Token : Type where
  | kwContext | kwInterface | kwFn | kwSelf
  | ident (s : String)
  | lbrace | rbrace | lbrack | rbrack | lparen | rparen
  | colon | comma | semi | plus | arrow | amp
deriving DecidableEq, Repr

/-- The Context Declaration IR of §3: name and ordered bindings
`(field_name, value_type, construction_strategy)`. -/
structure ContextDecl : Type where
  name : String
  bindings : List (String × String × String)
deriving DecidableEq, Repr

/-- The Interface Declaration IR of §3, at the parser level: name,
inherited interface names, required methods, extra marker supertraits. -/
structure InterfaceDecl : Type where
  name : String
  inherited : List String
  required_methods : List (String × String)
  extra_supertraits : List String
deriving DecidableEq, Repr

/-- Modelled from the spec: parse the body of a `context` block — a list
of `field: Type [Strategy]` bindings, comma-or-semicolon separated,
trailing separator tolerated, closed by the right brace; returns the
bindings and the remaining tokens. -/
def parseBindings : List Token → Except CompileError
    (List (String × String × String) × List Token)
  | .rbrace :: rest => .ok ([], rest)
  | .ident f :: .colon :: .ident ty :: .lbrack :: .ident fac :: .rbrack ::
      .comma :: rest =>
    match parseBindings rest with
    | .error e => .error e
    | .ok (bs, r) => .ok ((f, ty, fac) :: bs, r)
  | .ident f :: .colon :: .ident ty :: .lbrack :: .ident fac :: .rbrack ::
      .semi :: rest =>
    match parseBindings rest with
    | .error e => .error e
    | .ok (bs, r) => .ok ((f, ty, fac) :: bs, r)
  | .ident f :: .colon :: .ident ty :: .lbrack :: .ident fac :: .rbrack ::
      .rbrace :: rest => .ok ([(f, ty, fac)], rest)
  | _ => .error .grammarError

/-- Modelled from the spec: parse a `context Name { ... }` declaration. -/
def parseContextDecl : List Token → Except CompileError ContextDecl
  | .kwContext :: .ident n :: .lbrace :: rest =>
    match parseBindings rest with
    | .error e => .error e
    | .ok (bs, []) => .ok ⟨n, bs⟩
    | .ok (_, _ :: _) => .error .grammarError
  | _ => .error .grammarError

/-- Modelled from the spec: parse the `+`-joined supertrait list of an
interface header, up to the opening brace. -/
def parseSupers : List Token → Except CompileError (List String × List Token)
  | .ident b :: .plus :: rest =>
    match parseSupers rest with
    | .error e => .error e
    | .ok (ns, r) => .ok (b :: ns, r)
  | .ident b :: .lbrace :: rest => .ok ([b], rest)
  | _ => .error .grammarError

/-- Modelled from the spec: parse the body of an `interface` block — a
list of `fn method(&self) -> Type;` signatures, semicolon separated,
trailing separator tolerated, closed by the right brace. -/
def parseMethods : List Token → Except CompileError
    (List (String × String) × List Token)
  | .rbrace :: rest => .ok ([], rest)
  | .kwFn :: .ident m :: .lparen :: .amp :: .kwSelf :: .rparen :: .arrow ::
      .ident ty :: .semi :: rest =>
    match parseMethods rest with
    | .error e => .error e
    | .ok (ms, r) => .ok ((m, ty) :: ms, r)
  | .kwFn :: .ident m :: .lparen :: .amp :: .kwSelf :: .rparen :: .arrow ::
      .ident ty :: .rbrace :: rest => .ok ([(m, ty)], rest)
  | _ => .error .grammarError

/-- Modelled from the spec: parse an
`interface Name [: Base1 + Base2 [+ marker]] { ... }` declaration; a
supertrait named `Clone` is the clone-capable marker, every other
supertrait name is an inherited interface. -/
def parseInterfaceDecl : List Token → Except CompileError InterfaceDecl
  | .kwInterface :: .ident n :: .lbrace :: rest =>
    match parseMethods rest with
    | .error e => .error e
    | .ok (ms, []) => .ok ⟨n, [], ms, []⟩
    | .ok (_, _ :: _) => .error .grammarError
  | .kwInterface :: .ident n :: .colon :: rest =>
    match parseSupers rest with
    | .error e => .error e
    | .ok (supers, rest2) =>
      match parseMethods rest2 with
      | .error e => .error e
      | .ok (ms, []) =>
        .ok ⟨n, supers.filter (fun s => s ≠ "Clone"), ms,
             supers.filter (fun s => s = "Clone")⟩
      | .ok (_, _ :: _) => .error .grammarError
  | _ => .error .grammarError

end Aerosol

namespace Aerosol

/-- C2. Adaptor equivalence: for an old-style factory `t`, the adapted
new-style `build()` returns exactly the `Result` of `t.build(())`, and for
a new-style factory `s`, the adapted old-style `build(())` returns exactly
the `Result` of `s.build()`.  The associated `Object` type is preserved by
construction (both sides live in `Except E O` for the same `O`). -/
theorem factoryAdaptor_equiv (E O : Type) (t : v0_2.Factory E O)
    (s : Factory E O) (u : Unit) :
    (FactoryAdaptor.newOfOld t).build = t.build () ∧
      (FactoryAdaptor.oldOfNew s).build u = s.build := by
  exact ⟨rfl, rfl⟩

/-- C10. Adaptor involution: wrapping a new-style factory through the
old-style direction and back yields a new-style factory whose `build()`
is exactly the original `build()`; symmetrically for an old-style factory
wrapped through both directions.  Double adaption is behaviorally the
identity. -/
theorem factoryAdaptor_involution (E O : Type) (t : Factory E O)
    (s : v0_2.Factory E O) :
    (FactoryAdaptor.newOfOld (FactoryAdaptor.oldOfNew t)).build = t.build ∧
      (FactoryAdaptor.oldOfNew (FactoryAdaptor.newOfOld s)).build () =
        s.build () := by
  exact ⟨rfl, rfl⟩

mutual

/-- The blanket conditions hold exactly when every flattened method's
return capability type is provided. -/
theorem implementsDescriptor_eq_true_iff (p : List String) :
    ∀ i : Interface, implementsDescriptor p i = true ↔
      ∀ m ∈ i.allMethods, p.contains m.2 = true
  | .mk n inh req ex => by
    simp only [implementsDescriptor, Interface.allMethods, Bool.and_eq_true,
      List.all_eq_true, List.mem_append]
    rw [implementsAll_eq_true_iff p inh]
    constructor
    · rintro ⟨h1, h2⟩ m hm
      rcases hm with h | h
      · exact h1 m h
      · exact h2 m h
    · intro h
      exact ⟨fun m hm => h m (Or.inl hm), fun m hm => h m (Or.inr hm)⟩

/-- List version of `implementsDescriptor_eq_true_iff`. -/
theorem implementsAll_eq_true_iff (p : List String) :
    ∀ l : List Interface, implementsAll p l = true ↔
      ∀ m ∈ allMethodsList l, p.contains m.2 = true
  | [] => by simp [implementsAll, allMethodsList]
  | i :: rest => by
    simp only [implementsAll, allMethodsList, Bool.and_eq_true,
      List.mem_append]
    rw [implementsDescriptor_eq_true_iff p i,
      implementsAll_eq_true_iff p rest]
    constructor
    · rintro ⟨h1, h2⟩ m hm
      rcases hm with h | h
      · exact h1 m h
      · exact h2 m h
    · intro h
      exact ⟨fun m hm => h m (Or.inl hm), fun m hm => h m (Or.inr hm)⟩

end

/-- Satisfaction of the flattened requirement set, in terms of flattened
methods. -/
theorem satisfiesB_eq_true_iff (p : List String) (i : Interface) :
    satisfiesB p i = true ↔ ∀ m ∈ i.allMethods, p.contains m.2 = true := by
  unfold satisfiesB Interface.reqTypes
  rw [List.all_eq_true]
  constructor
  · intro h m hm
    exact h m.2 (List.mem_map_of_mem Prod.snd hm)
  · intro h t ht
    obtain ⟨m, hm, hmt⟩ := List.mem_map.1 ht
    exact hmt ▸ h m hm

/-- Flattened methods of a member interface are flattened methods of the
list. -/
theorem mem_allMethodsList_of_mem {i : Interface} :
    ∀ l : List Interface, i ∈ l → ∀ m ∈ i.allMethods, m ∈ allMethodsList l
  | [], h => absurd h (List.not_mem_nil i)
  | j :: rest, h => by
    intro m hm
    rcases List.mem_cons.1 h with h' | h'
    · exact List.mem_append.2 (Or.inl (h' ▸ hm))
    · exact List.mem_append.2 (Or.inr (mem_allMethodsList_of_mem rest h' m hm))

/-- An inherited interface's flattened methods are contained in the
heir's. -/
theorem allMethods_mono {i j : Interface} (h : i ∈ j.inherited) :
    ∀ m ∈ i.allMethods, m ∈ j.allMethods := by
  cases j with
  | mk n inh req ex =>
    intro m hm
    simp only [Interface.inherited] at h
    simp only [Interface.allMethods, List.mem_append]
    exact Or.inl (mem_allMethodsList_of_mem inh h m hm)

/-- C1. Blanket satisfaction soundness: when a context (value-modelled as
the association list from bound capability types to values) provides
every type in an interface's full requirement set, the blanket conditions
of the interface's descriptor hold — with no additional glue code — and
the emitted accessor table is exactly "delegate each accessor to the
corresponding `Provide<T>` capability". -/
theorem blanket_satisfaction_soundness (V : Type) (c : List (String × V))
    (i : Interface) (h : satisfiesB (c.map Prod.fst) i = true) :
    implementsDescriptor (c.map Prod.fst) i = true ∧
      blanketAccessors c i = i.allMethods.map fun m => (m.1, Provide c m.2) := by
  refine ⟨?_, rfl⟩
  rw [implementsDescriptor_eq_true_iff]
  exact (satisfiesB_eq_true_iff _ i).1 h

/-- C1 witness: a one-binding context providing type `A` satisfies and
implements an interface requiring only `A`. -/
theorem blanket_satisfaction_soundness_witness :
    implementsDescriptor (([("A", 1)] : List (String × Nat)).map Prod.fst)
        (Interface.mk "I" [] [("a", "A")] []) = true ∧
      blanketAccessors [("A", 1)] (Interface.mk "I" [] [("a", "A")] []) =
        (Interface.mk "I" [] [("a", "A")] []).allMethods.map
          fun m => (m.1, Provide [("A", 1)] m.2) :=
  blanket_satisfaction_soundness Nat [("A", 1)]
    (Interface.mk "I" [] [("a", "A")] []) (by rfl)

/-- C6. Satisfaction completeness: when some type of an interface's full
(inheritance-flattened) requirement set is not among the types a context
provides, the blanket conditions fail, so the satisfaction check rejects
the context — the missing capability is never accepted. -/
theorem satisfaction_completeness (p : List String) (i : Interface)
    (t : String) (ht : t ∈ i.reqTypes) (hmiss : p.contains t = false) :
    implementsDescriptor p i = false := by
  cases hd : implementsDescriptor p i with
  | false => rfl
  | true =>
    exfalso
    rw [implementsDescriptor_eq_true_iff] at hd
    obtain ⟨m, hm, hmt⟩ := List.mem_map.1 ht
    have := hd m hm
    rw [hmt] at this
    rw [this] at hmiss
    exact Bool.noConfusion hmiss

/-- C6 witness: a context providing nothing does not implement an
interface requiring `A`. -/
theorem satisfaction_completeness_witness :
    implementsDescriptor [] (Interface.mk "I" [] [("a", "A")] []) = false :=
  satisfaction_completeness [] (Interface.mk "I" [] [("a", "A")] [])
    "A" (by simp [Interface.reqTypes, Interface.allMethods, allMethodsList])
    (by rfl)

/-- C8. Inheritance transitivity: if `I2` inherits `I1` and `I3` inherits
`I2`, every set of provided types satisfying `I3`'s full requirement set
also satisfies `I2`'s and `I1`'s. -/
theorem inheritance_transitivity (p : List String) (i1 i2 i3 : Interface)
    (h12 : i1 ∈ i2.inherited) (h23 : i2 ∈ i3.inherited)
    (h : satisfiesB p i3 = true) :
    satisfiesB p i2 = true ∧ satisfiesB p i1 = true := by
  rw [satisfiesB_eq_true_iff] at h
  constructor
  · rw [satisfiesB_eq_true_iff]
    intro m hm
    exact h m (allMethods_mono h23 m hm)
  · rw [satisfiesB_eq_true_iff]
    intro m hm
    exact h m (allMethods_mono h23 m (allMethods_mono h12 m hm))

/-- C8 witness: a chain `I3 : I2 : I1` with provisions covering `I3`'s
flattened requirements also satisfies `I2` and `I1`. -/
theorem inheritance_transitivity_witness :
    satisfiesB ["A", "B"]
        (Interface.mk "I2" [Interface.mk "I1" [] [("a", "A")] []]
          [("b", "B")] []) = true ∧
      satisfiesB ["A", "B"] (Interface.mk "I1" [] [("a", "A")] []) = true :=
  inheritance_transitivity ["A", "B"]
    (Interface.mk "I1" [] [("a", "A")] [])
    (Interface.mk "I2" [Interface.mk "I1" [] [("a", "A")] []]
      [("b", "B")] [])
    (Interface.mk "I3"
      [Interface.mk "I2" [Interface.mk "I1" [] [("a", "A")] []]
        [("b", "B")] []] [] [])
    (List.Mem.head _) (List.Mem.head _) (by rfl)

/-- C5. Conflict detection: combining two inherited interfaces that
declare an accessor with the same method name under different return
capability types makes the interface compiler fail with a Conflict
Error — the collision is never resolved by last-write-wins. -/
theorem conflict_detection (n3 : String) (i1 i2 : Interface)
    (req3 : List (String × String)) (ex3 : List String)
    (m a b : String) (h1 : (m, a) ∈ i1.allMethods)
    (h2 : (m, b) ∈ i2.allMethods) (hab : a ≠ b) :
    compileInterface n3 [i1, i2] req3 ex3 =
      .error CompileError.conflictError := by
  have hms1 : (m, a) ∈ (Interface.mk n3 [i1, i2] req3 ex3).allMethods := by
    simp only [Interface.allMethods, allMethodsList, List.append_nil,
      List.mem_append]
    exact Or.inl (Or.inl h1)
  have hms2 : (m, b) ∈ (Interface.mk n3 [i1, i2] req3 ex3).allMethods := by
    simp only [Interface.allMethods, allMethodsList, List.append_nil,
      List.mem_append]
    exact Or.inl (Or.inr h2)
  cases hcf : conflictFree (Interface.mk n3 [i1, i2] req3 ex3).allMethods with
  | false => simp [compileInterface, hcf]
  | true =>
    exfalso
    have hx := List.all_eq_true.1 (List.all_eq_true.1 hcf (m, a) hms1)
      (m, b) hms2
    simp at hx
    exact hab hx

/-- C5 witness: `I1 { fn dep() -> A }` and `I2 { fn dep() -> B }` combined
into `I3 : I1 + I2 {}` fail with a Conflict Error. -/
theorem conflict_detection_witness :
    compileInterface "I3"
        [Interface.mk "I1" [] [("dep", "A")] [],
         Interface.mk "I2" [] [("dep", "B")] []] [] [] =
      .error CompileError.conflictError :=
  conflict_detection "I3" (Interface.mk "I1" [] [("dep", "A")] [])
    (Interface.mk "I2" [] [("dep", "B")] []) [] [] "dep" "A" "B"
    (by simp [Interface.allMethods, allMethodsList])
    (by simp [Interface.allMethods, allMethodsList]) (by decide)

/-- If every binding before a failing one succeeds, `contextNew` returns
the failing binding's error wrapped with its field name, whatever the
later bindings are. -/
theorem contextNew_shortCircuit (E V : Type) (b : Binding E V)
    (post : List (Binding E V)) (e : E) (hb : b.build = .error e) :
    ∀ pre : List (Binding E V), (∀ p ∈ pre, ∃ v, p.build = .ok v) →
      contextNew (pre ++ b :: post) = .error (b.field_name, e) := by
  intro pre
  induction pre with
  | nil => intro _; simp [contextNew, hb]
  | cons p rest ih =>
    intro hpre
    obtain ⟨v, hv⟩ := hpre p (List.mem_cons_self p rest)
    have ih' := ih fun q hq => hpre q (List.mem_cons_of_mem p hq)
    simp [contextNew, hv, ih']

/-- `contextNew` succeeds exactly when every binding's strategy
succeeds. -/
theorem contextNew_ok_iff (E V : Type) (bindings : List (Binding E V)) :
    (∃ vs, contextNew bindings = .ok vs) ↔
      ∀ p ∈ bindings, ∃ v, p.build = .ok v := by
  induction bindings with
  | nil => simp [contextNew]
  | cons b rest ih =>
    cases hb : b.build with
    | error e =>
      constructor
      · rintro ⟨vs, hvs⟩
        simp [contextNew, hb] at hvs
      · intro h
        obtain ⟨v, hv⟩ := h b (List.mem_cons_self b rest)
        rw [hb] at hv
        exact Except.noConfusion hv
    | ok v =>
      constructor
      · rintro ⟨vs, hvs⟩ p hp
        simp only [contextNew, hb] at hvs
        cases hr : contextNew rest with
        | error e2 =>
          rw [hr] at hvs
          exact Except.noConfusion hvs
        | ok vs2 =>
          rcases List.mem_cons.1 hp with h' | h'
          · exact h' ▸ ⟨v, hb⟩
          · exact ih.1 ⟨vs2, hr⟩ p h'
      · intro h
        obtain ⟨vs, hr⟩ := ih.2 fun p hp => h p (List.mem_cons_of_mem b hp)
        exact ⟨(b.field_name, v) :: vs, by simp [contextNew, hb, hr]⟩

/-- On success the assembled container is exactly the ordered list of
field names with the value each strategy produced. -/
theorem contextNew_ok_slots (E V : Type) :
    ∀ (bindings : List (Binding E V)) (vs : List (String × V)),
      contextNew bindings = .ok vs →
        bindings.map (fun p => (p.field_name, p.build)) =
          vs.map fun s => (s.1, Except.ok s.2)
  | [], vs, h => by
    simp only [contextNew] at h
    injection h with h
    subst h
    simp
  | p :: rest, vs, h => by
    cases hv : p.build with
    | error e =>
      simp only [contextNew, hv] at h
      exact Except.noConfusion h
    | ok v =>
      simp only [contextNew, hv] at h
      cases hr : contextNew rest with
      | error e =>
        rw [hr] at h
        exact Except.noConfusion h
      | ok vs2 =>
        rw [hr] at h
        injection h with h
        subst h
        simp only [List.map_cons, hv]
        rw [contextNew_ok_slots E V rest vs2 hr]

/-- C3. Constructor semantics: `contextNew` runs the bindings in
declaration order — at the first binding whose strategy fails it returns
that binding's error wrapped with its field name, independently of every
later binding (no later strategy contributes, no partial container is
produced); it returns `Ok` if and only if every binding's strategy
succeeds, and then the assembled container holds, in declaration order,
each field name with the value its strategy built. -/
theorem context_constructor_semantics (E V : Type)
    (pre post bindings : List (Binding E V)) (b : Binding E V) (e : E)
    (hpre : ∀ p ∈ pre, ∃ v, p.build = .ok v) (hb : b.build = .error e) :
    contextNew (pre ++ b :: post) = .error (b.field_name, e) ∧
      ((∃ vs, contextNew bindings = .ok vs) ↔
        ∀ p ∈ bindings, ∃ v, p.build = .ok v) ∧
      ∀ vs, contextNew bindings = .ok vs →
        bindings.map (fun p => (p.field_name, p.build)) =
          vs.map fun s => (s.1, Except.ok s.2) :=
  ⟨contextNew_shortCircuit E V b post e hb pre hpre,
   contextNew_ok_iff E V bindings,
   fun vs h => contextNew_ok_slots E V bindings vs h⟩

/-- C3 witness: with a succeeding binding `a`, a failing binding `bad`
and a later binding `c`, construction fails with `bad`'s wrapped error;
a context of one succeeding binding `x` constructs. -/
theorem context_constructor_semantics_witness :
    contextNew ([Binding.mk "a" (Except.ok 1 : Except String Nat)] ++
        Binding.mk "bad" (Except.error "boom" : Except String Nat) ::
          [Binding.mk "c" (Except.ok 2 : Except String Nat)]) =
      Except.error ("bad", "boom") ∧
      ((∃ vs, contextNew
          [Binding.mk "x" (Except.ok 5 : Except String Nat)] = .ok vs) ↔
        ∀ p ∈ [Binding.mk "x" (Except.ok 5 : Except String Nat)],
          ∃ v, p.build = .ok v) ∧
      ∀ vs, contextNew
          [Binding.mk "x" (Except.ok 5 : Except String Nat)] = .ok vs →
        [Binding.mk "x" (Except.ok 5 : Except String Nat)].map
            (fun p => (p.field_name, p.build)) =
          vs.map fun s => (s.1, Except.ok s.2) :=
  context_constructor_semantics String Nat
    [Binding.mk "a" (Except.ok 1)] [Binding.mk "c" (Except.ok 2)]
    [Binding.mk "x" (Except.ok 5)]
    (Binding.mk "bad" (Except.error "boom")) "boom"
    (by
      intro p hp
      rw [List.mem_singleton] at hp
      exact ⟨1, by rw [hp]⟩)
    rfl

/-- C4. Round-trip example: `AppContext::new()` succeeds exactly when
`LoggerFactory::build()` succeeds, and on success the instance's
`Provide<Logger>` capability returns exactly the built value. -/
theorem appContext_roundTrip (E V : Type) (loggerFactory : Factory E V) :
    ((∃ c, AppContext.new loggerFactory = .ok c) ↔
        ∃ v, loggerFactory.build = .ok v) ∧
      ∀ c, AppContext.new loggerFactory = .ok c →
        loggerFactory.build = .ok c.provideLogger := by
  cases hb : loggerFactory.build with
  | ok v =>
    constructor
    · constructor
      · intro _
        exact ⟨v, rfl⟩
      · intro _
        exact ⟨AppContext.mk v, by simp [AppContext.new, hb]⟩
    · intro c hc
      simp only [AppContext.new, hb] at hc
      injection hc with hc
      rw [← hc]
      rfl
  | error e =>
    constructor
    · constructor
      · rintro ⟨c, hc⟩
        simp [AppContext.new, hb] at hc
      · rintro ⟨v, hv⟩
        exact Except.noConfusion hv
    · intro c hc
      simp [AppContext.new, hb] at hc

/-- C4 witness: with a logger factory building the value `7`, the context
constructs and provides exactly `7`. -/
theorem appContext_roundTrip_witness :
    ((∃ c, AppContext.new (Factory.mk (Except.ok (7 : Nat))
          (E := String)) = .ok c) ↔
        ∃ v, (Factory.mk (Except.ok (7 : Nat)) (E := String)).build =
          .ok v) ∧
      ∀ c, AppContext.new (Factory.mk (Except.ok (7 : Nat))
          (E := String)) = .ok c →
        (Factory.mk (Except.ok (7 : Nat)) (E := String)).build =
          .ok c.provideLogger :=
  appContext_roundTrip String Nat (Factory.mk (Except.ok 7))

/-- C7. Substitution isolation: when `ProvideWith`'s substitution of the
slot bound at capability type `t` succeeds, the copy has the same number
of slots and every slot whose bound type is not `t` is identical to the
original's slot at the same position; the original container, a pure
value, is never modified. -/
theorem provideWith_isolation (E V : Type) (t : String)
    (replacement : Except E V) (c c2 : List (Slot V))
    (h : provideWith t replacement c = .ok c2) :
    c.length = c2.length ∧
      ∀ (i : Nat) (s0 : Slot V), c.get? i = some s0 →
        s0.value_type ≠ t → c2.get? i = some s0 := by
  induction c generalizing c2 with
  | nil =>
    simp only [provideWith] at h
    injection h with h
    subst h
    refine ⟨rfl, ?_⟩
    intro i s0 hs
    simp at hs
  | cons s rest ih =>
    simp only [provideWith] at h
    by_cases hst : s.value_type = t
    · rw [if_pos hst] at h
      cases replacement with
      | error e => exact Except.noConfusion h
      | ok v =>
        cases hr : provideWith t (Except.ok v) rest with
        | error e2 =>
          rw [hr] at h
          exact Except.noConfusion h
        | ok r =>
          rw [hr] at h
          injection h with h
          subst h
          obtain ⟨hlen, hother⟩ := ih r hr
          refine ⟨by simp [hlen], ?_⟩
          intro i s0 hs hne
          match i with
          | 0 =>
            simp only [List.get?] at hs
            injection hs with hs
            subst hs
            exact absurd hst hne
          | Nat.succ j =>
            simp only [List.get?] at hs ⊢
            exact hother j s0 hs hne
    · rw [if_neg hst] at h
      cases hr : provideWith t replacement rest with
      | error e2 =>
        rw [hr] at h
        exact Except.noConfusion h
      | ok r =>
        rw [hr] at h
        injection h with h
        subst h
        obtain ⟨hlen, hother⟩ := ih r hr
        refine ⟨by simp [hlen], ?_⟩
        intro i s0 hs hne
        match i with
        | 0 => exact hs
        | Nat.succ j =>
          simp only [List.get?] at hs ⊢
          exact hother j s0 hs hne

/-- C7 witness: substituting type `B` in a two-slot container leaves the
`A` slot (position 0) identical. -/
theorem provideWith_isolation_witness :
    ([Slot.mk "x" "A" (1 : Nat), Slot.mk "y" "B" 2].length =
        [Slot.mk "x" "A" (1 : Nat), Slot.mk "y" "B" 9].length) ∧
      ∀ (i : Nat) (s0 : Slot Nat),
        [Slot.mk "x" "A" (1 : Nat), Slot.mk "y" "B" 2].get? i = some s0 →
        s0.value_type ≠ "B" →
        [Slot.mk "x" "A" (1 : Nat), Slot.mk "y" "B" 9].get? i = some s0 :=
  provideWith_isolation String Nat "B" (Except.ok 9)
    [Slot.mk "x" "A" 1, Slot.mk "y" "B" 2]
    [Slot.mk "x" "A" 1, Slot.mk "y" "B" 9] (by rfl)

/-- C9. Empty-body acceptance: the parser accepts `context Foo {}` and
yields a context declaration with zero bindings, and accepts
`interface Foo {}` and yields an interface declaration with zero
requirements. -/
theorem empty_body_acceptance (n : String) :
    parseContextDecl [Token.kwContext, Token.ident n, Token.lbrace,
        Token.rbrace] = .ok (ContextDecl.mk n []) ∧
      parseInterfaceDecl [Token.kwInterface, Token.ident n, Token.lbrace,
        Token.rbrace] = .ok (InterfaceDecl.mk n [] [] []) :=
  ⟨rfl, rfl⟩

end Aerosol
